import Mathlib

/-!
Shallow embedding of the `AaveVault` contract
(`packages/hardhat/contracts/AaveVault.sol`, Solidity >=0.8.0).

Ledger state: `userDeposits` (mapping address => uint256, default 0),
`totalDeposits`, the contract's native ETH balance (idle funds), and the
vault's aToken balance (its claim inside Aave). Amounts are modelled as
unbounded naturals: Solidity 0.8 checked arithmetic never wraps — an
overflowing or underflowing operation reverts instead, and the explicit
panic cases below mirror the reverts that can actually fire from the
code's own expressions (division by zero at `withdraw` line 99, and the
`totalDeposits -= amount` underflow at line 103).

A revert is modelled with `Except`: on `Except.error` the EVM discards
every state change of the call, so an errored call leaves the pre-call
state (made explicit by `withdrawRun` below).

External collaborators, per the spec's stated assumptions: WETH wraps and
transfers 1:1; `aavePool.supply` credits aTokens 1:1; `aavePool.withdraw`
returns the requested amount when the vault's aToken balance covers it and
reverts otherwise; a plain ETH transfer succeeds iff the contract balance
covers the sent value.
-/

namespace AaveVault

/-- Depositor identities (EVM addresses), modelled as naturals. -/
abbrev Addr := Nat

/-- The contract's ledger state together with the two asset balances the
contract reads: its own ETH balance and its aToken balance. -/
structure VaultState where
  userDeposits : Addr → Nat
  totalDeposits : Nat
  ethBalance : Nat
  aaveBalance : Nat

/-- State of a freshly constructed vault: empty ledger, no funds. -/
def initState : VaultState :=
  { userDeposits := fun _ => 0, totalDeposits := 0, ethBalance := 0, aaveBalance := 0 }

/-- The contract's revert reasons. `arithmeticPanic` stands for the
Solidity 0.8 checked-arithmetic panics (division by zero, underflow). -/
inductive VaultError where
  /-- "Must deposit more than 0" / "Must withdraw more than 0" -/
  | invalidAmount
  /-- "Insufficient balance" -/
  | insufficientBalance
  /-- "No ETH to supply" -/
  | noIdleFunds
  /-- `aavePool.withdraw` reverted -/
  | externalWithdrawFailed
  /-- "WETH transfer failed" / "ETH transfer failed" -/
  | transferFailed
  /-- Solidity 0.8 checked-arithmetic panic -/
  | arithmeticPanic
deriving DecidableEq, Repr

/-- `getTotalVaultValue()` (lines 144-148): ETH balance + aToken balance. -/
def getTotalVaultValue (s : VaultState) : Nat :=
  s.ethBalance + s.aaveBalance

/-- `deposit()` (lines 58-65): requires `msg.value > 0`, then credits the
caller's record and the total; the attached value joins the contract's ETH
balance (the EVM credits `msg.value` before the body runs). -/
def deposit (s : VaultState) (sender : Addr) (value : Nat) :
    Except VaultError VaultState :=
  if value = 0 then .error .invalidAmount
  else .ok { s with
    userDeposits := Function.update s.userDeposits sender (s.userDeposits sender + value),
    totalDeposits := s.totalDeposits + value,
    ethBalance := s.ethBalance + value }

/-- `supplyToAave()` (lines 71-85): requires a positive ETH balance, wraps
all of it to WETH and supplies it to Aave (the vault receives aTokens 1:1).
Returns the new state and the supplied amount (the `SuppliedToAave` event
payload). -/
def supplyToAave (s : VaultState) : Except VaultError (VaultState × Nat) :=
  if s.ethBalance = 0 then .error .noIdleFunds
  else .ok ({ s with ethBalance := 0, aaveBalance := s.aaveBalance + s.ethBalance },
            s.ethBalance)

/-- Outcome of a successful `withdraw`: the post state, the ETH paid to the
caller, and the WETH paid to the caller. -/
structure WithdrawOut where
  state : VaultState
  ethPaid : Nat
  wethPaid : Nat

/-- `withdraw(amount)` (lines 93-138), step for step:
requires `amount > 0` and `userDeposits[msg.sender] >= amount`;
`userShare = totalVaultValue * amount / totalDeposits` (division by zero
panics); bookkeeping is reduced (the `totalDeposits -= amount` underflow
would panic); then routing: if `userShare > ethBalance && aaveBalance > 0`
the shortfall `userShare - ethBalance` is pulled from Aave as WETH (revert
if the aToken balance cannot cover it) and the caller is paid the whole
ETH balance natively plus the pulled WETH; otherwise the caller is paid
`userShare` in ETH (the low-level call reverts if the balance cannot
cover it).

The source's locals are inlined here: `userShare` is computed from the
pre-call `totalDeposits` (line 99, before the decrement at line 103), and
the `ethBalance`/`aaveBalance` reads at lines 106-107 equal the pre-call
balances because the bookkeeping update touches neither balance and
`withdraw` is non-payable (`msg.value = 0`). -/
def withdraw (s : VaultState) (sender : Addr) (amount : Nat) :
    Except VaultError WithdrawOut :=
  if amount = 0 then .error .invalidAmount
  else if s.userDeposits sender < amount then .error .insufficientBalance
  else if s.totalDeposits = 0 then .error .arithmeticPanic
  else if s.totalDeposits < amount then .error .arithmeticPanic
  else if s.ethBalance < getTotalVaultValue s * amount / s.totalDeposits
          ∧ 0 < s.aaveBalance then
    if s.aaveBalance <
        getTotalVaultValue s * amount / s.totalDeposits - s.ethBalance then
      .error .externalWithdrawFailed
    else
      .ok { state := {
              userDeposits :=
                Function.update s.userDeposits sender (s.userDeposits sender - amount),
              totalDeposits := s.totalDeposits - amount,
              ethBalance := 0,
              aaveBalance := s.aaveBalance -
                (getTotalVaultValue s * amount / s.totalDeposits - s.ethBalance) },
            ethPaid := s.ethBalance,
            wethPaid := getTotalVaultValue s * amount / s.totalDeposits - s.ethBalance }
  else if s.ethBalance < getTotalVaultValue s * amount / s.totalDeposits then
    .error .transferFailed
  else
    .ok { state := {
            userDeposits :=
              Function.update s.userDeposits sender (s.userDeposits sender - amount),
            totalDeposits := s.totalDeposits - amount,
            ethBalance := s.ethBalance - getTotalVaultValue s * amount / s.totalDeposits,
            aaveBalance := s.aaveBalance },
          ethPaid := getTotalVaultValue s * amount / s.totalDeposits,
          wethPaid := 0 }

/-- A `withdraw` call as the EVM executes it: on revert every state change
is discarded, so the caller observes the pre-call state. -/
def withdrawRun (s : VaultState) (sender : Addr) (amount : Nat) :
    VaultState × Except VaultError (Nat × Nat) :=
  match withdraw s sender amount with
  | .ok out => (out.state, .ok (out.ethPaid, out.wethPaid))
  | .error e => (s, .error e)

/-- `getUserValue(user)` (lines 155-160). -/
def getUserValue (s : VaultState) (user : Addr) : Nat :=
  if s.totalDeposits = 0 then 0
  else getTotalVaultValue s * s.userDeposits user / s.totalDeposits

/-- `getUserInterest(user)` (lines 167-177). -/
def getUserInterest (s : VaultState) (user : Addr) : Nat :=
  if s.totalDeposits = 0 then 0
  else
    let userTotalValue := getTotalVaultValue s * s.userDeposits user / s.totalDeposits
    if s.userDeposits user < userTotalValue then userTotalValue - s.userDeposits user
    else 0

/-- The plain `receive()` function (line 198): ETH sent directly to the
contract joins its balance with no bookkeeping at all. -/
def receiveEth (s : VaultState) (value : Nat) : VaultState :=
  { s with ethBalance := s.ethBalance + value }

/-- States reachable from the freshly constructed vault by the contract's
operations, direct ETH transfers, and Aave interest accrual (which only
grows a positive aToken balance). -/
inductive Reachable : VaultState → Prop where
  | init : Reachable initState
  | depositStep {s s' : VaultState} {a : Addr} {v : Nat} :
      Reachable s → deposit s a v = .ok s' → Reachable s'
  | supplyStep {s s' : VaultState} {n : Nat} :
      Reachable s → supplyToAave s = .ok (s', n) → Reachable s'
  | withdrawStep {s : VaultState} {a : Addr} {n : Nat} {out : WithdrawOut} :
      Reachable s → withdraw s a n = .ok out → Reachable out.state
  | receiveStep {s : VaultState} (v : Nat) :
      Reachable s → Reachable (receiveEth s v)
  | accrueStep {s : VaultState} (g : Nat) :
      Reachable s → 0 < s.aaveBalance →
      Reachable { s with aaveBalance := s.aaveBalance + g }

/-- The ledger invariant: the recorded total is the sum of the individual
records, whose support is finite. -/
def LedgerInv (s : VaultState) : Prop :=
  ∃ S : Finset Addr, (∀ a, a ∉ S → s.userDeposits a = 0) ∧
    s.totalDeposits = S.sum s.userDeposits

/-- The state after a single deposit of 1 wei by depositor 0 into the
fresh vault. -/
def oneDepositState : VaultState :=
  { userDeposits := Function.update (fun _ => 0) 0 1,
    totalDeposits := 1, ethBalance := 1, aaveBalance := 0 }

/-- A concrete state: depositor 0 holds the whole 2-wei principal, 1 wei
is idle and 3 wei sit in Aave (2 supplied plus 1 of accrued yield — the
extra idle wei arrived through `receive()`). -/
def w1State : VaultState :=
  { userDeposits := Function.update (fun _ => 0) 0 2,
    totalDeposits := 2, ethBalance := 1, aaveBalance := 3 }

/-- The state after depositor 0 deposits 2 wei into the fresh vault. -/
def twoDepositState : VaultState :=
  { userDeposits := Function.update (fun _ => 0) 0 2,
    totalDeposits := 2, ethBalance := 2, aaveBalance := 0 }

/-- The state after that 2-wei deposit has been supplied to Aave. -/
def twoSuppliedState : VaultState :=
  { userDeposits := Function.update (fun _ => 0) 0 2,
    totalDeposits := 2, ethBalance := 0, aaveBalance := 2 }

/-- The state after depositor 0 deposits 5 wei into the fresh vault. -/
def c4wState : VaultState :=
  { userDeposits := Function.update (fun _ => 0) 0 5,
    totalDeposits := 5, ethBalance := 5, aaveBalance := 0 }

example : deposit initState 0 5 =
    .ok { userDeposits := Function.update (fun _ => 0) 0 5,
          totalDeposits := 5, ethBalance := 5, aaveBalance := 0 } := rfl

example : (withdrawRun (receiveEth initState 1) 0 0).2 = .error .invalidAmount := rfl

/-! ## Helper lemmas: ledger invariant and withdraw characterization -/

theorem ledgerInv_le {s : VaultState} (hs : LedgerInv s) (a : Addr) :
    s.userDeposits a ≤ s.totalDeposits := by
  obtain ⟨S, hS, hsum⟩ := hs
  by_cases ha : a ∈ S
  · rw [hsum]
    exact Finset.single_le_sum (fun i _ => Nat.zero_le _) ha
  · rw [hS a ha]
    exact Nat.zero_le _

theorem sum_update_add (S : Finset Addr) (f : Addr → Nat) {a : Addr}
    (ha : a ∈ S) (b : Nat) :
    S.sum (Function.update f a b) + f a = S.sum f + b := by
  rw [Finset.sum_update_of_mem ha, ← Finset.sum_erase_add S f ha, Finset.erase_eq]
  ring

theorem sum_insert_of_support (S : Finset Addr) (f : Addr → Nat) (a : Addr)
    (hS : ∀ b, b ∉ S → f b = 0) :
    (insert a S).sum f = S.sum f := by
  by_cases haS : a ∈ S
  · rw [Finset.insert_eq_self.mpr haS]
  · rw [Finset.sum_insert haS, hS a haS, zero_add]

theorem deposit_ok_inv {s s' : VaultState} {a : Addr} {v : Nat}
    (h : deposit s a v = .ok s') :
    0 < v ∧
    s' = { s with
      userDeposits := Function.update s.userDeposits a (s.userDeposits a + v),
      totalDeposits := s.totalDeposits + v,
      ethBalance := s.ethBalance + v } := by
  unfold deposit at h
  split at h
  · exact Except.noConfusion h
  · injection h with h
    exact ⟨by omega, h.symm⟩

theorem withdraw_ok_inv {s : VaultState} {a : Addr} {n : Nat} {out : WithdrawOut}
    (h : withdraw s a n = .ok out) :
    0 < n ∧ n ≤ s.userDeposits a ∧ n ≤ s.totalDeposits ∧
    out.state.userDeposits =
      Function.update s.userDeposits a (s.userDeposits a - n) ∧
    out.state.totalDeposits = s.totalDeposits - n := by
  unfold withdraw at h
  split at h
  · exact Except.noConfusion h
  next hn =>
    split at h
    · exact Except.noConfusion h
    next hd =>
      split at h
      · exact Except.noConfusion h
      next hT =>
        split at h
        · exact Except.noConfusion h
        next hTn =>
          split at h
          · split at h
            · exact Except.noConfusion h
            · injection h with h
              subst h
              exact ⟨by omega, by omega, by omega, rfl, rfl⟩
          · split at h
            · exact Except.noConfusion h
            · injection h with h
              subst h
              exact ⟨by omega, by omega, by omega, rfl, rfl⟩

theorem ledgerInv_deposit {s s' : VaultState} {a : Addr} {v : Nat}
    (hs : LedgerInv s) (h : deposit s a v = .ok s') : LedgerInv s' := by
  obtain ⟨S, hS, hsum⟩ := hs
  obtain ⟨-, rfl⟩ := deposit_ok_inv h
  refine ⟨insert a S, ?_, ?_⟩
  · intro b hb
    have hbS : b ∉ S := fun hbm => hb (Finset.mem_insert_of_mem hbm)
    have hba : b ≠ a := fun hba => hb (hba ▸ Finset.mem_insert_self a S)
    show Function.update s.userDeposits a (s.userDeposits a + v) b = 0
    rw [Function.update_noteq hba]
    exact hS b hbS
  · show s.totalDeposits + v =
      (insert a S).sum (Function.update s.userDeposits a (s.userDeposits a + v))
    have hkey := sum_update_add (insert a S) s.userDeposits
      (Finset.mem_insert_self a S) (s.userDeposits a + v)
    have hins := sum_insert_of_support S s.userDeposits a hS
    omega

theorem ledgerInv_withdraw {s : VaultState} {a : Addr} {n : Nat} {out : WithdrawOut}
    (hs : LedgerInv s) (h : withdraw s a n = .ok out) : LedgerInv out.state := by
  obtain ⟨S, hS, hsum⟩ := hs
  obtain ⟨-, hle, hleT, hdep, htot⟩ := withdraw_ok_inv h
  refine ⟨insert a S, ?_, ?_⟩
  · intro b hb
    have hbS : b ∉ S := fun hbm => hb (Finset.mem_insert_of_mem hbm)
    have hba : b ≠ a := fun hba => hb (hba ▸ Finset.mem_insert_self a S)
    rw [hdep, Function.update_noteq hba]
    exact hS b hbS
  · rw [htot, hdep]
    have hkey := sum_update_add (insert a S) s.userDeposits
      (Finset.mem_insert_self a S) (s.userDeposits a - n)
    have hins := sum_insert_of_support S s.userDeposits a hS
    omega

theorem ledgerInv_supply {s s' : VaultState} {n : Nat}
    (hs : LedgerInv s) (h : supplyToAave s = .ok (s', n)) : LedgerInv s' := by
  obtain ⟨S, hS, hsum⟩ := hs
  unfold supplyToAave at h
  split at h
  · exact Except.noConfusion h
  · injection h with h
    injection h with h1 h2
    subst h1
    exact ⟨S, hS, hsum⟩

theorem reachable_ledgerInv {s : VaultState} (hs : Reachable s) : LedgerInv s := by
  induction hs with
  | init => exact ⟨∅, fun a _ => rfl, rfl⟩
  | depositStep _ h ih => exact ledgerInv_deposit ih h
  | supplyStep _ h ih => exact ledgerInv_supply ih h
  | withdrawStep _ h ih => exact ledgerInv_withdraw ih h
  | receiveStep v _ ih => obtain ⟨S, hS, hsum⟩ := ih; exact ⟨S, hS, hsum⟩
  | accrueStep g _ _ ih => obtain ⟨S, hS, hsum⟩ := ih; exact ⟨S, hS, hsum⟩

theorem share_le_value (s : VaultState) {n : Nat} (h3 : n ≤ s.totalDeposits)
    (hT : 0 < s.totalDeposits) :
    getTotalVaultValue s * n / s.totalDeposits ≤ getTotalVaultValue s := by
  calc getTotalVaultValue s * n / s.totalDeposits
      ≤ getTotalVaultValue s * s.totalDeposits / s.totalDeposits :=
        Nat.div_le_div_right (Nat.mul_le_mul_left _ h3)
    _ = getTotalVaultValue s := Nat.mul_div_left _ hT

theorem withdraw_ok_cases (s : VaultState) (a : Addr) (n : Nat)
    (h1 : 0 < n) (h2 : n ≤ s.userDeposits a) (h3 : n ≤ s.totalDeposits) :
    (getTotalVaultValue s * n / s.totalDeposits ≤ s.ethBalance ∧
      withdraw s a n = .ok
        { state := {
            userDeposits := Function.update s.userDeposits a (s.userDeposits a - n),
            totalDeposits := s.totalDeposits - n,
            ethBalance := s.ethBalance - getTotalVaultValue s * n / s.totalDeposits,
            aaveBalance := s.aaveBalance },
          ethPaid := getTotalVaultValue s * n / s.totalDeposits,
          wethPaid := 0 }) ∨
    (s.ethBalance < getTotalVaultValue s * n / s.totalDeposits ∧
      withdraw s a n = .ok
        { state := {
            userDeposits := Function.update s.userDeposits a (s.userDeposits a - n),
            totalDeposits := s.totalDeposits - n,
            ethBalance := 0,
            aaveBalance := s.aaveBalance -
              (getTotalVaultValue s * n / s.totalDeposits - s.ethBalance) },
          ethPaid := s.ethBalance,
          wethPaid := getTotalVaultValue s * n / s.totalDeposits - s.ethBalance }) := by
  have hT : 0 < s.totalDeposits := lt_of_lt_of_le h1 h3
  have hval : getTotalVaultValue s * n / s.totalDeposits ≤ getTotalVaultValue s :=
    share_le_value s h3 hT
  have hVA : getTotalVaultValue s = s.ethBalance + s.aaveBalance := rfl
  have g1 : ¬ n = 0 := by omega
  have g2 : ¬ s.userDeposits a < n := by omega
  have g3 : ¬ s.totalDeposits = 0 := by omega
  have g4 : ¬ s.totalDeposits < n := by omega
  by_cases hc : s.ethBalance < getTotalVaultValue s * n / s.totalDeposits
  · right
    refine ⟨hc, ?_⟩
    have haave : 0 < s.aaveBalance := by omega
    have hcov : ¬ s.aaveBalance <
        getTotalVaultValue s * n / s.totalDeposits - s.ethBalance := by omega
    unfold withdraw
    rw [if_neg g1, if_neg g2, if_neg g3, if_neg g4, if_pos ⟨hc, haave⟩, if_neg hcov]
  · left
    refine ⟨by omega, ?_⟩
    unfold withdraw
    rw [if_neg g1, if_neg g2, if_neg g3, if_neg g4,
        if_neg (fun hand => hc hand.1), if_neg hc]

/-- Claim C1: for every call to `withdraw` from a state satisfying the
ledger invariant, with `0 < amount ≤ userDeposits[caller]`, the call
succeeds and the total value transferred to the caller — ETH plus WETH
combined — equals `floor(totalVaultValue * amount / totalDeposits)`
computed from the state at the start of the call, before the caller's
bookkeeping is reduced. -/
theorem c1_withdraw_total_payout (s : VaultState) (a : Addr) (n : Nat)
    (hInv : LedgerInv s) (h1 : 0 < n) (h2 : n ≤ s.userDeposits a) :
    ∃ out, withdraw s a n = .ok out ∧
      out.ethPaid + out.wethPaid = getTotalVaultValue s * n / s.totalDeposits := by
  have h3 : n ≤ s.totalDeposits := le_trans h2 (ledgerInv_le hInv a)
  rcases withdraw_ok_cases s a n h1 h2 h3 with ⟨hle, hok⟩ | ⟨hlt, hok⟩
  · exact ⟨_, hok, by simp⟩
  · exact ⟨_, hok, by simp only []; omega⟩

/-- Claim C3: for every successful `withdraw` from an invariant-satisfying
state, with `payout = floor(totalVaultValue * amount / totalDeposits)`: if
the idle ETH balance covers `payout`, the caller is paid `payout` entirely
in ETH and the aToken balance is untouched; otherwise the shortfall
`payout - ethBalance` is pulled from Aave and the caller is paid the full
idle balance in ETH plus the pulled amount in WETH. The routing decision
depends only on whether `ethBalance ≥ payout`. -/
theorem c3_withdraw_routing (s : VaultState) (a : Addr) (n : Nat)
    (hInv : LedgerInv s) (h1 : 0 < n) (h2 : n ≤ s.userDeposits a) :
    ∃ out, withdraw s a n = .ok out ∧
      (getTotalVaultValue s * n / s.totalDeposits ≤ s.ethBalance →
        out.ethPaid = getTotalVaultValue s * n / s.totalDeposits ∧
        out.wethPaid = 0 ∧
        out.state.aaveBalance = s.aaveBalance) ∧
      (s.ethBalance < getTotalVaultValue s * n / s.totalDeposits →
        out.ethPaid = s.ethBalance ∧
        out.wethPaid = getTotalVaultValue s * n / s.totalDeposits - s.ethBalance ∧
        out.state.aaveBalance = s.aaveBalance -
          (getTotalVaultValue s * n / s.totalDeposits - s.ethBalance)) := by
  have h3 : n ≤ s.totalDeposits := le_trans h2 (ledgerInv_le hInv a)
  rcases withdraw_ok_cases s a n h1 h2 h3 with ⟨hle, hok⟩ | ⟨hlt, hok⟩
  · exact ⟨_, hok, fun _ => ⟨rfl, rfl, rfl⟩, fun hlt => absurd hle (by omega)⟩
  · exact ⟨_, hok, fun hle => absurd hle (by omega), fun _ => ⟨rfl, rfl, rfl⟩⟩

/-- Claim C7 (amended): depositing `amount > 0` and then immediately
withdrawing the same `amount` — with no `supplyToAave` call and no yield
accrual in between, starting from a state whose vault value equals its
recorded principal — pays the depositor back exactly `amount` (all in
ETH) and restores every `userDeposits` record and `totalDeposits` to
their values before the deposit. The added hypothesis
`getTotalVaultValue s = s.totalDeposits` is forced: from a reachable
state that already carries yield or untracked value the same round trip
pays out the floored proportional share of that value instead of exactly
`amount` (see the counterexample below). -/
theorem c7_deposit_withdraw_round_trip (s : VaultState) (a : Addr) (n : Nat)
    (h1 : 0 < n) (hnoYield : getTotalVaultValue s = s.totalDeposits) :
    ∃ s1 out, deposit s a n = .ok s1 ∧ withdraw s1 a n = .ok out ∧
      out.ethPaid = n ∧ out.wethPaid = 0 ∧
      (∀ b, out.state.userDeposits b = s.userDeposits b) ∧
      out.state.totalDeposits = s.totalDeposits := by
  have hVA : getTotalVaultValue s = s.ethBalance + s.aaveBalance := rfl
  refine ⟨{ s with
    userDeposits := Function.update s.userDeposits a (s.userDeposits a + n),
    totalDeposits := s.totalDeposits + n,
    ethBalance := s.ethBalance + n }, ?_⟩
  have hdep : deposit s a n = .ok { s with
      userDeposits := Function.update s.userDeposits a (s.userDeposits a + n),
      totalDeposits := s.totalDeposits + n,
      ethBalance := s.ethBalance + n } := by
    unfold deposit
    rw [if_neg (by omega)]
  set s1 : VaultState := { s with
    userDeposits := Function.update s.userDeposits a (s.userDeposits a + n),
    totalDeposits := s.totalDeposits + n,
    ethBalance := s.ethBalance + n } with hs1
  have h2 : n ≤ s1.userDeposits a := by
    show n ≤ Function.update s.userDeposits a (s.userDeposits a + n) a
    rw [Function.update_same]
    omega
  have h3 : n ≤ s1.totalDeposits := by
    show n ≤ s.totalDeposits + n
    omega
  have hshare : getTotalVaultValue s1 * n / s1.totalDeposits = n := by
    show (s.ethBalance + n + s.aaveBalance) * n / (s.totalDeposits + n) = n
    have heq : s.ethBalance + n + s.aaveBalance = s.totalDeposits + n := by omega
    rw [heq, Nat.mul_div_cancel_left _ (by omega)]
  rcases withdraw_ok_cases s1 a n h1 h2 h3 with ⟨hle, hok⟩ | ⟨hlt, hok⟩
  · refine ⟨_, hdep, hok, ?_, rfl, ?_, ?_⟩
    · show getTotalVaultValue s1 * n / s1.totalDeposits = n
      exact hshare
    · intro b
      show Function.update s1.userDeposits a (s1.userDeposits a - n) b = s.userDeposits b
      by_cases hb : b = a
      · subst hb
        rw [Function.update_same]
        show Function.update s.userDeposits b (s.userDeposits b + n) b - n = _
        rw [Function.update_same]
        omega
      · rw [Function.update_noteq hb]
        show Function.update s.userDeposits a (s.userDeposits a + n) b = _
        rw [Function.update_noteq hb]
    · show s1.totalDeposits - n = s.totalDeposits
      show s.totalDeposits + n - n = s.totalDeposits
      omega
  · rw [hshare] at hlt
    have : s.ethBalance + n < n := hlt
    omega

theorem w1State_reachable : Reachable w1State := by
  have h1 : Reachable twoDepositState :=
    @Reachable.depositStep initState twoDepositState 0 2 Reachable.init rfl
  have h2 : Reachable twoSuppliedState :=
    @Reachable.supplyStep twoDepositState twoSuppliedState 2 h1 rfl
  have h3 := Reachable.accrueStep 1 h2 (by decide)
  exact Reachable.receiveStep 1 h3

/-- Claim C7 fails as stated: in the reachable state `w1State` — principal
2 wei, vault value 4 wei after accrued yield and a stray transfer —
depositing 2 wei and immediately withdrawing 2 wei, with no `supplyToAave`
call and no yield accrual in between, pays back
`floor(6 * 2 / 4) = 3 ≠ 2` wei. -/
theorem c7_round_trip_counterexample :
    Reachable w1State ∧
    ∃ s1 out, deposit w1State 0 2 = .ok s1 ∧ withdraw s1 0 2 = .ok out ∧
      out.ethPaid + out.wethPaid ≠ 2 :=
  ⟨w1State_reachable, _, _, rfl, rfl, by decide⟩

/-- Claim C2: a `withdraw` call fails with `InvalidAmount` when the amount
is zero, fails with `InsufficientBalance` when the amount exceeds the
caller's recorded deposit, and every failing call leaves the entire
pre-call state intact — the EVM discards all state changes of a reverted
call, so no partial mutation survives. -/
theorem c2_withdraw_failures_atomic (s : VaultState) (a : Addr) (n : Nat) :
    (n = 0 → (withdrawRun s a n).2 = .error .invalidAmount) ∧
    (s.userDeposits a < n → (withdrawRun s a n).2 = .error .insufficientBalance) ∧
    (∀ e, (withdrawRun s a n).2 = .error e → (withdrawRun s a n).1 = s) := by
  refine ⟨?_, ?_, ?_⟩
  · intro hn
    subst hn
    unfold withdrawRun withdraw
    rw [if_pos rfl]
  · intro hd
    have hn : ¬ n = 0 := by omega
    unfold withdrawRun withdraw
    rw [if_neg hn, if_pos hd]
  · intro e he
    unfold withdrawRun at he ⊢
    cases hw : withdraw s a n with
    | ok out =>
      rw [hw] at he
      exact Except.noConfusion he
    | error e2 =>
      rfl

/-- Claim C4: in every state reachable from the freshly constructed vault,
`totalDeposits` equals the exact sum of `userDeposits` over any finite set
of addresses covering all depositors with a nonzero record. -/
theorem c4_total_eq_sum (s : VaultState) (hs : Reachable s) (S : Finset Addr)
    (hS : ∀ a, a ∉ S → s.userDeposits a = 0) :
    s.totalDeposits = S.sum s.userDeposits := by
  obtain ⟨S0, hS0, hsum⟩ := reachable_ledgerInv hs
  have h1 : S.sum s.userDeposits = (S ∪ S0).sum s.userDeposits :=
    Finset.sum_subset Finset.subset_union_left (fun x _ hx => hS x hx)
  have h2 : S0.sum s.userDeposits = (S ∪ S0).sum s.userDeposits :=
    Finset.sum_subset Finset.subset_union_right (fun x _ hx => hS0 x hx)
  omega

/-- Claim C5: `deposit` fails with `InvalidAmount` exactly when the
attached value is zero; for every positive value it succeeds, increasing
the caller's record and `totalDeposits` by exactly that value, leaving
every other record untouched, and keeping the funds idle (the ETH balance
grows by the value, the aToken balance is unchanged — no external
routing). -/
theorem c5_deposit_effects (s : VaultState) (a : Addr) (v : Nat) :
    (v = 0 → deposit s a v = .error .invalidAmount) ∧
    (0 < v → ∃ s', deposit s a v = .ok s' ∧
      s'.userDeposits a = s.userDeposits a + v ∧
      s'.totalDeposits = s.totalDeposits + v ∧
      (∀ b, b ≠ a → s'.userDeposits b = s.userDeposits b) ∧
      s'.ethBalance = s.ethBalance + v ∧
      s'.aaveBalance = s.aaveBalance) := by
  constructor
  · intro hv
    subst hv
    rfl
  · intro hv
    refine ⟨{ s with
        userDeposits := Function.update s.userDeposits a (s.userDeposits a + v),
        totalDeposits := s.totalDeposits + v,
        ethBalance := s.ethBalance + v }, ?_, ?_, rfl, ?_, rfl, rfl⟩
    · unfold deposit
      rw [if_neg (by omega)]
    · show Function.update s.userDeposits a (s.userDeposits a + v) a = _
      rw [Function.update_same]
    · intro b hb
      show Function.update s.userDeposits a (s.userDeposits a + v) b = _
      rw [Function.update_noteq hb]

/-- Claim C6: the read-only queries agree with the spec's formulas:
`getUserValue` is 0 when `totalDeposits = 0` and otherwise
`floor(totalVaultValue * userDeposits[u] / totalDeposits)`, and
`getUserInterest` is `max(0, userValue - userDeposits[u])` (stated over
the integers, where the subtraction can go negative). Both are total
functions of the state. -/
theorem c6_view_query_formulas (s : VaultState) (u : Addr) :
    getUserValue s u =
      (if s.totalDeposits = 0 then 0
       else getTotalVaultValue s * s.userDeposits u / s.totalDeposits) ∧
    (getUserInterest s u : Int) =
      max 0 ((getUserValue s u : Int) - (s.userDeposits u : Int)) := by
  constructor
  · rfl
  · unfold getUserInterest getUserValue
    by_cases hT : s.totalDeposits = 0
    · rw [if_pos hT, if_pos hT]
      simp
    · rw [if_neg hT, if_neg hT]
      by_cases hgt : s.userDeposits u <
          getTotalVaultValue s * s.userDeposits u / s.totalDeposits
      · rw [if_pos hgt]
        omega
      · rw [if_neg hgt]
        omega

/-- Claim C8: `supplyToAave` fails with `NoIdleFunds` when the ETH balance
is zero; otherwise it supplies the entire ETH balance to Aave, after which
the ETH balance is zero, the aToken balance has grown by the supplied
amount (the 1:1 crediting assumption of the spec), the ledger records are
untouched, and `getTotalVaultValue` is unchanged. -/
theorem c8_supply_moves_idle (s : VaultState) :
    (s.ethBalance = 0 → supplyToAave s = .error .noIdleFunds) ∧
    (0 < s.ethBalance → ∃ s', supplyToAave s = .ok (s', s.ethBalance) ∧
      s'.ethBalance = 0 ∧
      s'.aaveBalance = s.aaveBalance + s.ethBalance ∧
      getTotalVaultValue s' = getTotalVaultValue s ∧
      s'.userDeposits = s.userDeposits ∧
      s'.totalDeposits = s.totalDeposits) := by
  constructor
  · intro h0
    unfold supplyToAave
    rw [if_pos h0]
  · intro hpos
    refine ⟨{ s with ethBalance := 0, aaveBalance := s.aaveBalance + s.ethBalance },
      ?_, rfl, rfl, ?_, rfl, rfl⟩
    · unfold supplyToAave
      rw [if_neg (by omega)]
    · show 0 + (s.aaveBalance + s.ethBalance) = s.ethBalance + s.aaveBalance
      omega

/-- Claim C9 fails as stated: `getTotalVaultValue()` has no
`totalDeposits == 0` guard, so in the reachable state obtained by sending
1 wei straight to the contract (`receive()`), `totalDeposits` is 0 yet
`getTotalVaultValue()` returns 1, not 0. -/
theorem c9_total_value_not_zero_counterexample :
    Reachable (receiveEth initState 1) ∧
    (receiveEth initState 1).totalDeposits = 0 ∧
    getTotalVaultValue (receiveEth initState 1) ≠ 0 :=
  ⟨Reachable.receiveStep 1 Reachable.init, rfl, by decide⟩

/-- Claim C9 (amended): in every state with `totalDeposits = 0`,
`getUserValue` and `getUserInterest` return 0 for every depositor with no
division by zero; `getTotalVaultValue` returns the sum of the ETH and
aToken balances, which is 0 whenever both components are 0 (in particular
in the freshly constructed vault), but need not be 0 after direct
transfers. -/
theorem c9_empty_ledger_queries (s : VaultState) (u : Addr)
    (hT : s.totalDeposits = 0) :
    getUserValue s u = 0 ∧ getUserInterest s u = 0 ∧
    (s.ethBalance = 0 → s.aaveBalance = 0 → getTotalVaultValue s = 0) := by
  refine ⟨?_, ?_, ?_⟩
  · unfold getUserValue
    rw [if_pos hT]
  · unfold getUserInterest
    rw [if_pos hT]
  · intro h1 h2
    unfold getTotalVaultValue
    omega

/-- Claim C10: ETH sent through the plain `receive()` function performs no
bookkeeping — every `userDeposits` record and `totalDeposits` are
unchanged while the ETH balance and hence `getTotalVaultValue()` grow by
the transferred value — so `getTotalVaultValue()` can strictly exceed
`totalDeposits` even when the latter is 0; and such value is shared pro
rata by later withdrawals: after depositing 1 wei and receiving 1 stray
wei, withdrawing the 1 wei of principal pays out 2 wei. -/
theorem c10_receive_untracked_value (s : VaultState) (v : Nat) :
    (receiveEth s v).userDeposits = s.userDeposits ∧
    (receiveEth s v).totalDeposits = s.totalDeposits ∧
    (receiveEth s v).ethBalance = s.ethBalance + v ∧
    getTotalVaultValue (receiveEth s v) = getTotalVaultValue s + v ∧
    (s.totalDeposits = 0 → 0 < v →
      (receiveEth s v).totalDeposits < getTotalVaultValue (receiveEth s v)) ∧
    deposit initState 0 1 = .ok oneDepositState ∧
    (∃ out, withdraw (receiveEth oneDepositState 1) 0 1 = .ok out ∧
      out.ethPaid + out.wethPaid = 2) := by
  refine ⟨rfl, rfl, rfl, ?_, ?_, rfl, ⟨_, rfl, rfl⟩⟩
  · show s.ethBalance + v + s.aaveBalance = s.ethBalance + s.aaveBalance + v
    omega
  · intro h0 hv
    show s.totalDeposits < s.ethBalance + v + s.aaveBalance
    omega

/-! ## Witnesses: the claim theorems applied at concrete inputs -/

theorem w1State_inv : LedgerInv w1State := by
  refine ⟨{0}, ?_, ?_⟩
  · intro a ha
    have h : a ≠ 0 := Finset.not_mem_singleton.mp ha
    show Function.update (fun _ => 0) 0 2 a = 0
    rw [Function.update_noteq h]
  · show (2 : Nat) = Finset.sum {0} w1State.userDeposits
    rw [Finset.sum_singleton]
    rfl

/-- Witness for C1 at a concrete input: withdrawing 1 of 2 wei principal
from a 4-wei vault pays out `floor(4 * 1 / 2) = 2` in total. -/
theorem c1_withdraw_total_payout_witness :
    ∃ out, withdraw w1State 0 1 = .ok out ∧ out.ethPaid + out.wethPaid = 2 :=
  c1_withdraw_total_payout w1State 0 1 w1State_inv (by decide) (by decide)

/-- Witness for C2 at concrete inputs: the zero-amount and excess-amount
failures, and state preservation on failure. -/
theorem c2_withdraw_failures_atomic_witness :
    (withdrawRun initState 0 0).2 = .error .invalidAmount ∧
    (withdrawRun oneDepositState 0 5).2 = .error .insufficientBalance ∧
    (withdrawRun initState 0 0).1 = initState :=
  ⟨(c2_withdraw_failures_atomic initState 0 0).1 rfl,
   (c2_withdraw_failures_atomic oneDepositState 0 5).2.1 (by decide),
   (c2_withdraw_failures_atomic initState 0 0).2.2 .invalidAmount
     ((c2_withdraw_failures_atomic initState 0 0).1 rfl)⟩

/-- Witness for C3 at a concrete input: withdrawing all 2 wei of principal
when only 1 wei is idle pays 1 wei in ETH and pulls 3 wei from Aave as
WETH (`payout = floor(4 * 2 / 2) = 4`). -/
theorem c3_withdraw_routing_witness :
    ∃ out, withdraw w1State 0 2 = .ok out ∧ out.ethPaid = 1 ∧ out.wethPaid = 3 := by
  obtain ⟨out, hok, -, hroute⟩ :=
    c3_withdraw_routing w1State 0 2 w1State_inv (by decide) (by decide)
  obtain ⟨h1, h2, -⟩ := hroute (by decide)
  exact ⟨out, hok, h1, h2⟩

/-- Witness for C4 at a concrete reachable state: after a 5-wei deposit by
depositor 0, `totalDeposits` equals the sum over the support `{0}`. -/
theorem c4_total_eq_sum_witness :
    c4wState.totalDeposits = ({0} : Finset Addr).sum c4wState.userDeposits :=
  c4_total_eq_sum c4wState
    (Reachable.depositStep Reachable.init
      (show deposit initState 0 5 = .ok c4wState from rfl))
    {0}
    (fun a ha => by
      have h : a ≠ 0 := Finset.not_mem_singleton.mp ha
      show Function.update (fun _ => 0) 0 5 a = 0
      rw [Function.update_noteq h])

/-- Witness for C5 at concrete inputs: a zero deposit fails, a 3-wei
deposit credits depositor 0 with 3 wei. -/
theorem c5_deposit_effects_witness :
    deposit initState 0 0 = .error .invalidAmount ∧
    (∃ s', deposit initState 0 3 = .ok s' ∧
      s'.userDeposits 0 = initState.userDeposits 0 + 3 ∧
      s'.totalDeposits = initState.totalDeposits + 3 ∧
      (∀ b, b ≠ 0 → s'.userDeposits b = initState.userDeposits b) ∧
      s'.ethBalance = initState.ethBalance + 3 ∧
      s'.aaveBalance = initState.aaveBalance) :=
  ⟨(c5_deposit_effects initState 0 0).1 rfl,
   (c5_deposit_effects initState 0 3).2 (by decide)⟩

/-- Witness for C7 at a concrete input: depositing 4 wei into the fresh
vault and withdrawing 4 wei returns exactly 4 wei in ETH. -/
theorem c7_deposit_withdraw_round_trip_witness :
    ∃ s1 out, deposit initState 0 4 = .ok s1 ∧ withdraw s1 0 4 = .ok out ∧
      out.ethPaid = 4 ∧ out.wethPaid = 0 ∧
      (∀ b, out.state.userDeposits b = initState.userDeposits b) ∧
      out.state.totalDeposits = initState.totalDeposits :=
  c7_deposit_withdraw_round_trip initState 0 4 (by decide) rfl

/-- Witness for C8 at concrete inputs: supplying from the empty vault
fails; after 4 stray wei arrive, supplying moves all 4 into Aave with the
vault value unchanged. -/
theorem c8_supply_moves_idle_witness :
    supplyToAave initState = .error .noIdleFunds ∧
    (∃ s', supplyToAave (receiveEth initState 4) =
        .ok (s', (receiveEth initState 4).ethBalance) ∧
      s'.ethBalance = 0 ∧
      s'.aaveBalance = (receiveEth initState 4).aaveBalance +
        (receiveEth initState 4).ethBalance ∧
      getTotalVaultValue s' = getTotalVaultValue (receiveEth initState 4) ∧
      s'.userDeposits = (receiveEth initState 4).userDeposits ∧
      s'.totalDeposits = (receiveEth initState 4).totalDeposits) :=
  ⟨(c8_supply_moves_idle initState).1 rfl,
   (c8_supply_moves_idle (receiveEth initState 4)).2 (by decide)⟩

/-- Witness for the amended C9 at a concrete input: in the fresh vault all
three queries return 0. -/
theorem c9_empty_ledger_queries_witness :
    getUserValue initState 0 = 0 ∧ getUserInterest initState 0 = 0 ∧
    getTotalVaultValue initState = 0 := by
  obtain ⟨h1, h2, h3⟩ := c9_empty_ledger_queries initState 0 rfl
  exact ⟨h1, h2, h3 rfl rfl⟩

/-- Witness for C10 at a concrete input: 3 wei sent through `receive()`
leave the ledger empty while the vault value becomes positive. -/
theorem c10_receive_untracked_value_witness :
    (receiveEth initState 3).totalDeposits <
      getTotalVaultValue (receiveEth initState 3) := by
  obtain ⟨-, -, -, -, hpos, -, -⟩ := c10_receive_untracked_value initState 3
  exact hpos rfl (by decide)

end AaveVault
